import Mathlib

/-
Shallow embedding of the resolution and aggregation engine of the
github_projects_mcp repository (src/github_client.py,
src/github_projects_cli.py, src/github_projects_mcp.py), with proofs
settling the frozen claims about its natural-language specification.

Dynamic Python values are modelled by the inductive type J below.  The
Python primitives the code relies on (d.get, the `in` operator on strings
and lists, str.split, str.lstrip, str.isdigit, str.lower, str.startswith,
list indexing) are modelled by executable functions, and their failure
modes (AttributeError when .get is called on a non-dict such as None,
IndexError on out-of-range indexing, TypeError on iterating or hashing
unsuitable values) are made explicit in an Except monad, so that "the code
raises on this input" is a provable proposition.

Characters are compared by code point, which coincides with Python's
string comparison; str.lower and str.isdigit are modelled on the ASCII
range (Char.toLower / Char.isDigit), which agrees with Python on every
string appearing in the claims.
-/

-- ===========================================================================
-- Python string primitives
-- ===========================================================================

/-- Model of Python `s.startswith(pat)` at the character-list level:
`beginsWith pat s` is true when `pat` is an initial run of `s`,
compared literally and case-sensitively, code point by code point. -/
def beginsWith : List Char → List Char → Bool
  | [], _ => true
  | _ :: _, [] => false
  | a :: as, b :: bs => a == b && beginsWith as bs

/-- Model of Python `pat in s` (substring containment) on character lists:
true when `pat` occurs contiguously in `s`.  The empty pattern is contained
in every string, exactly as in Python. -/
def pyInChars (pat : List Char) : List Char → Bool
  | [] => beginsWith pat []
  | c :: rest => beginsWith pat (c :: rest) || pyInChars pat rest

/-- Model of Python `pat in s` on strings. -/
def pyIn (pat s : String) : Bool := pyInChars pat.data s.data

/-- Model of Python `s.startswith(pat)` on strings. -/
def pyStartsWith (s pat : String) : Bool := beginsWith pat.data s.data

/-- Model of Python `s.split(sep)` for a one-character separator, on
character lists.  `"".split(sep)` is `[""]`, and separators at either end
produce empty segments, exactly as in Python. -/
def splitChars (sep : Char) : List Char → List (List Char)
  | [] => [[]]
  | c :: rest =>
    if c == sep then [] :: splitChars sep rest
    else
      match splitChars sep rest with
      | [] => [[c]]
      | h :: t => (c :: h) :: t

/-- Model of Python `s.split(sep)` on strings. -/
def pySplit (s : String) (sep : Char) : List String :=
  (splitChars sep s.data).map (fun cs => String.mk cs)

/-- Model of Python `s.lower()` (ASCII range). -/
def pyLower (s : String) : String := String.mk (s.data.map Char.toLower)

/-- Model of Python `s.lstrip(c)`: drop every leading occurrence of `c`. -/
def pyLstrip (c : Char) (s : String) : String :=
  String.mk (s.data.dropWhile (fun a => a == c))

/-- Model of Python `s.isdigit()`: nonempty and all decimal digits. -/
def pyIsDigit (s : String) : Bool :=
  !s.data.isEmpty && s.data.all (fun c => c.isDigit)

/-- Lexicographic-by-code-point comparison of character lists: the order
Python uses when sorting a list of strings. -/
def charsLe : List Char → List Char → Bool
  | [], _ => true
  | _ :: _, [] => false
  | a :: as, b :: bs =>
    if a.toNat < b.toNat then true
    else if b.toNat < a.toNat then false
    else charsLe as bs

/-- Lexicographic-ascending comparison of strings, as used by Python's
`sorted` on strings. -/
def strLe (a b : String) : Bool := charsLe a.data b.data

/-- Insert a string into a list at the first position where it compares
`strLe` to the head. -/
def insItem (x : String) : List String → List String
  | [] => [x]
  | y :: ys => if strLe x y then x :: y :: ys else y :: insItem x ys

/-- Insertion sort by `strLe`: extensionally equal to Python's `sorted` on
every duplicate-free list of strings (both produce the unique ascending
rearrangement; the lists sorted by the code below are duplicate-free). -/
def insSort : List String → List String
  | [] => []
  | x :: xs => insItem x (insSort xs)

/-- Model of a Python `for`-loop that returns on the first element
satisfying a condition. -/
def findFirst (p : α → Bool) : List α → Option α
  | [] => none
  | x :: xs => if p x then some x else findFirst p xs

/-- Model of Python `x in l` for a list of strings. -/
def pyInList (x : String) : List String → Bool
  | [] => false
  | y :: ys => if x == y then true else pyInList x ys

/-- Effectful map over a list in the Except monad, stopping at the first
failure: the shape of a Python loop whose body may raise. -/
def mapE (f : α → Except String β) : List α → Except String (List β)
  | [] => .ok []
  | a :: as => do
    let b ← f a
    let bs ← mapE f as
    .ok (b :: bs)

-- ===========================================================================
-- Dynamic (JSON-like) values and Python dict semantics
-- ===========================================================================

/-- Dynamically-shaped values, as delivered by the GraphQL layer and
consumed duck-typed by the Python code: null, strings, integers, booleans,
arrays and objects (dicts with string keys, in insertion order). -/
inductive J where
  | null
  | str (v : String)
  | num (v : Int)
  | bool (v : Bool)
  | arr (xs : List J)
  | obj (kvs : List (String × J))

/-- First binding of a key in an object's field list (Python dicts have
unique keys, so the first binding is the only one). -/
def objLookup : List (String × J) → String → Option J
  | [], _ => none
  | (k, v) :: rest, key => if k == key then some v else objLookup rest key

/-- Model of Python `d.get(key, dflt)`: returns the stored value when the
key is present (even when that value is None), the default when absent,
and raises AttributeError when the receiver is not a dict — in particular
when it is None, which is how `content.get("author", {}).get("login")`
fails on a present-but-null author. -/
def pyGetD : J → String → J → Except String J
  | .obj kvs, key, dflt => .ok ((objLookup kvs key).getD dflt)
  | _, _, _ => .error "AttributeError"

/-- Python truthiness: None, "", 0, False, [] and \x7b\x7d are falsy. -/
def truthy : J → Bool
  | .null => false
  | .str v => !v.isEmpty
  | .num v => v != 0
  | .bool v => v
  | .arr xs => !xs.isEmpty
  | .obj kvs => !kvs.isEmpty

/-- Equality of scalar values, as Python `==` behaves on the hashable
scalars used as dict keys by this code. -/
def scalarEq : J → J → Bool
  | .null, .null => true
  | .str a, .str b => a == b
  | .num a, .num b => a == b
  | .bool a, .bool b => a == b
  | _, _ => false

/-- Whether a value may be used as a Python dict key (lists and dicts are
unhashable and raise TypeError). -/
def hashable : J → Bool
  | .arr _ => false
  | .obj _ => false
  | _ => true

/-- Model of Python iteration `for x in v`: arrays yield their elements,
strings their one-character substrings, dicts their keys; other values
raise TypeError. -/
def iterElems : J → Except String (List J)
  | .arr xs => .ok xs
  | .str v => .ok (v.data.map (fun c => J.str (String.mk [c])))
  | .obj kvs => .ok (kvs.map (fun kv => J.str kv.1))
  | _ => .error "TypeError"

/-- Model of Python `v.lower()`: only strings have `.lower`. -/
def pyLowerJ : J → Except String String
  | .str v => .ok (pyLower v)
  | _ => .error "AttributeError"

-- ===========================================================================
-- Item Normalizer: status extraction (identical loop in
-- github_projects_mcp.get_project_issues and
-- github_projects_cli.display_project_board)
-- ===========================================================================

/-- The body of the status-search loop: for each field-value node, read its
"field" sub-document; when that is truthy and its "name", lower-cased,
equals "status", return the node's own "name" (defaulting to "No Status")
and stop; otherwise continue with the running status. -/
def statusLoop : List J → J → Except String J
  | [], st => .ok st
  | fv :: rest, st => do
    let field ← pyGetD fv "field" J.null
    if truthy field then
      let nmJ ← pyGetD field "name" (J.str "")
      let nm ← pyLowerJ nmJ
      if nm == "status" then pyGetD fv "name" (J.str "No Status")
      else statusLoop rest st
    else statusLoop rest st

/-- Status of one raw item: walk `item.get("fieldValues", default).get("nodes",
default)` and run the status-search loop starting from the sentinel
"No Status".  Shared verbatim by the MCP and CLI copies of the code. -/
def itemStatus (item : J) : Except String J := do
  let fvw ← pyGetD item "fieldValues" (J.obj [])
  let nodesJ ← pyGetD fvw "nodes" (J.arr [])
  let nodes ← iterElems nodesJ
  statusLoop nodes (J.str "No Status")

-- ===========================================================================
-- Reference Extractor (two divergent copies in the source)
-- ===========================================================================

/-- The owner/repo extraction inlined in get_project_issues
(github_projects_mcp.py, lines 103-108): only the "/issues/" marker is
recognized; unrecognized URLs yield the empty-string sentinel pair, the
MCP code's representation of Unresolvable. -/
def extract_repo_ref_mcp (url : String) : Except String (String × String) :=
  if pyIn "/issues/" url then
    match (pySplit url '/').get? 3, (pySplit url '/').get? 4 with
    | some ow, some rp => .ok (ow, rp)
    | _, _ => .error "IndexError"
  else .ok ("", "")

/-- The owner/repo extraction in display_issue_details
(github_projects_cli.py, lines 387-391): both "/issues/" and "/pull/" are
recognized; an unrecognized URL makes the code skip the feature, modelled
as the `none` outcome (the spec's Unresolvable). -/
def extract_repo_ref_cli (url : String) : Except String (Option (String × String)) :=
  if pyIn "/issues/" url || pyIn "/pull/" url then
    match (pySplit url '/').get? 3, (pySplit url '/').get? 4 with
    | some ow, some rp => .ok (some (ow, rp))
    | _, _ => .error "IndexError"
  else .ok none

-- ===========================================================================
-- Item Normalizer: the per-item pass of get_project_issues
-- (github_projects_mcp.py, lines 84-120)
-- ===========================================================================

/-- The normalized record built for one kept item by get_project_issues. -/
structure IssueData where
  number : J
  title : J
  state : J
  author : J
  url : String
  owner : String
  repo : String
  status : J

/-- One iteration of the item-normalization loop of get_project_issues:
skip the item when its content is falsy or has no truthy "number"
(drafts); otherwise find its status, extract owner/repo from its URL, and
build the issue record.  Each `.get` chain is modelled with its real
failure mode; in particular `content.get("author", defaultdict).get("login")`
raises AttributeError when "author" is present but null. -/
def normalize_item (item : J) : Except String (Option (J × IssueData)) := do
  let content ← pyGetD item "content" (J.obj [])
  if !truthy content then return none
  let numCheck ← pyGetD content "number" J.null
  if !truthy numCheck then return none
  let status ← itemStatus item
  let urlJ ← pyGetD content "url" (J.str "")
  let url ← match urlJ with
    | .str v => Except.ok v
    | _ => Except.error "TypeError"
  let owrp ← extract_repo_ref_mcp url
  let number ← pyGetD content "number" J.null
  let title ← pyGetD content "title" J.null
  let state ← pyGetD content "state" J.null
  let authorObj ← pyGetD content "author" (J.obj [])
  let author ← pyGetD authorObj "login" J.null
  return some (status,
    { number, title, state, author, url,
      owner := owrp.1, repo := owrp.2, status })

-- ===========================================================================
-- Board Organizer (github_projects_cli.display_project_board)
-- ===========================================================================

/-- One rendered line of a kanban column: a bare title for items without a
truthy number (drafts), or a title-with-number line. -/
inductive Row where
  | plain (title : J)
  | numbered (title number : J)

/-- One displayed status column: its label, the size of its item group
(printed in the column header), and its rendered rows. -/
structure RenderedGroup where
  label : String
  count : Nat
  rows : List Row

/-- The row-rendering step of display_project_board for one item:
`content = item.get("content") or defaultdict`; a falsy content produces no
row; otherwise the title (default "Untitled") is shown, with the number
appended when the number is truthy. -/
def renderRow (item : J) : Except String (Option Row) := do
  let c0 ← pyGetD item "content" J.null
  let content := if truthy c0 then c0 else J.obj []
  if truthy content then
    let title ← pyGetD content "title" (J.str "Untitled")
    let num ← pyGetD content "number" (J.str "")
    if truthy num then return some (Row.numbered title num)
    else return some (Row.plain title)
  else return none

/-- Render the rows of one column, in item order, skipping row-less items. -/
def collectRows : List J → Except String (List Row)
  | [] => .ok []
  | it :: rest => do
    match (← renderRow it) with
    | some r =>
      let rs ← collectRows rest
      .ok (r :: rs)
    | none => collectRows rest

/-- Lookup in a dict keyed by scalar J values. -/
def lookupJ : List (J × List J) → J → Option (List J)
  | [], _ => none
  | (k, v) :: rest, key => if scalarEq k key then some v else lookupJ rest key

/-- Model of `status_groups[status].append(item)` on a J-keyed dict. -/
def bucketAppendJ (key : J) (x : J) : List (J × List J) → List (J × List J)
  | [] => []
  | (k, v) :: rest =>
    if scalarEq k key then (k, v ++ [x]) :: rest
    else (k, v) :: bucketAppendJ key x rest

/-- The grouping loop of display_project_board: for each (status, item)
pair, test membership (which hashes the status, raising TypeError on an
unhashable one), create the group on first sight, and append the item. -/
def cliGroupFold : List (J × List J) → List (J × J) → Except String (List (J × List J))
  | acc, [] => .ok acc
  | acc, (st, it) :: rest =>
    if !hashable st then .error "TypeError"
    else match lookupJ acc st with
      | some _ => cliGroupFold (bucketAppendJ st it acc) rest
      | none => cliGroupFold (acc ++ [(st, [it])]) rest

/-- The three-tier status ordering of display_project_board, over pairs of
(status key, its lower-cased text): statuses containing "todo" first, in
encounter order; statuses containing "closed" or "done" last, in encounter
order; every other status in between, sorted ascending. -/
def statusTiers (kp : List (String × String)) : List String :=
  let todoKs := (kp.filter (fun p => pyIn "todo" p.2)).map Prod.fst
  let closedKs := (kp.filter (fun p => pyIn "closed" p.2 || pyIn "done" p.2)).map Prod.fst
  let otherKs := (kp.map Prod.fst).filter (fun s => !pyInList s (todoKs ++ closedKs))
  todoKs ++ insSort otherKs ++ closedKs

/-- The status ordering applied to the raw keys of the grouping dict: each
key is lower-cased (`s.lower()` inside the tier comprehensions), which
raises AttributeError on a non-string status key, then the three-tier
order is formed. -/
def cliStatusOrder (keys : List J) : Except String (List String) := do
  let kp ← mapE (fun k => match k with
    | J.str v => Except.ok (v, pyLower v)
    | _ => Except.error "AttributeError") keys
  .ok (statusTiers kp)

/-- The Board Organizer of display_project_board, from the raw item list:
compute each item's status, group items by status, order the groups by the
three-tier policy, and render each column (label, group size, rows). -/
def board_of_items (items : List J) : Except String (List RenderedGroup) := do
  let tagged ← mapE (fun it => do
    let st ← itemStatus it
    Except.ok (st, it)) items
  let groups ← cliGroupFold [] tagged
  let order ← cliStatusOrder (groups.map Prod.fst)
  mapE (fun s => do
    let bucket := (lookupJ groups (J.str s)).getD []
    let rows ← collectRows bucket
    Except.ok { label := s, count := bucket.length, rows := rows }) order

/-- display_project_board on a whole raw project document: extract
`project_data.get("items", default).get("nodes", default)` and organize. -/
def display_project_board (project_data : J) : Except String (List RenderedGroup) := do
  let itemsJ ← pyGetD project_data "items" (J.obj [])
  let nodesJ ← pyGetD itemsJ "nodes" (J.arr [])
  let items ← iterElems nodesJ
  board_of_items items

/-- Lookup in a string-keyed grouping dict. -/
def lookupGroup : List (String × List α) → String → Option (List α)
  | [], _ => none
  | (k, v) :: rest, key => if k == key then some v else lookupGroup rest key

/-- Model of `status_groups[status].append(item)` on a string-keyed dict. -/
def bucketAppendS (key : String) (x : α) : List (String × List α) → List (String × List α)
  | [] => []
  | (k, v) :: rest =>
    if k == key then (k, v ++ [x]) :: rest
    else (k, v) :: bucketAppendS key x rest

/-- The grouping loop over items with string statuses: create a group on
first sight of a status, then append the item to its group. -/
def groupFold : List (String × List α) → List (String × α) → List (String × List α)
  | acc, [] => acc
  | acc, (st, x) :: rest =>
    match lookupGroup acc st with
    | some _ => groupFold (bucketAppendS st x acc) rest
    | none => groupFold (acc ++ [(st, [x])]) rest

/-- The grouping-and-ordering core of display_project_board over items
whose statuses are strings (the only case in which the source's ordering
comprehensions do not raise): partition by status in first-seen order,
then emit the groups in the three-tier order, looking each ordered status
up in the grouping dict.  This is the `organize` operation of the spec. -/
def organize (items : List (String × α)) : List (String × List α) :=
  let groups := groupFold [] items
  let order := statusTiers ((groups.map Prod.fst).map (fun s => (s, pyLower s)))
  order.map (fun s => (s, (lookupGroup groups s).getD []))

-- ===========================================================================
-- Identifier Resolver (github_client._find_project_in_list, lines 58-82)
-- ===========================================================================

/-- A project summary as consumed by the resolver: the opaque id, the
human-facing title, and the project number (the fields the resolver's
`p.get` calls read from each summary dict). -/
structure ProjectSummary where
  id : String
  title : String
  number : Nat

/-- The resolver: four rules tried in strict order — exact id; number
(after stripping leading hash marks, when all digits); case-insensitive
exact title; case-insensitive substring of the title — with the first
match winning, and a last-resort ValueError whose message carries the
identifier. -/
def find_project_in_list (projects : List ProjectSummary) (identifier : String) :
    Except String String :=
  match findFirst (fun p => p.id == identifier) projects with
  | some _ => .ok identifier
  | none =>
    let numberS := pyLstrip '#' identifier
    match (if pyIsDigit numberS then
             findFirst (fun p => toString p.number == numberS) projects
           else none) with
    | some p => .ok p.id
    | none =>
      match findFirst (fun p => pyLower p.title == pyLower identifier) projects with
      | some p => .ok p.id
      | none =>
        match findFirst (fun p => pyIn (pyLower identifier) (pyLower p.title)) projects with
        | some p => .ok p.id
        | none => .error ("Project not found: " ++ identifier)

-- ===========================================================================
-- Commit Filter (github_client.get_commits_by_prefix, lines 277-284)
-- ===========================================================================

/-- A commit record as built from the GraphQL history query. -/
structure Commit where
  oid : String
  message : String
  authorName : String
  authorDate : String

/-- The filtering loop at the end of the commit-history fetch: walk the
commits in order, appending each whose message starts with the given
string (literal, case-sensitive comparison), and return the accumulator. -/
def filter_commits_by_start (commits : List Commit) (pfx : String) : List Commit :=
  commits.foldl (fun acc c => if pyStartsWith c.message pfx then acc ++ [c] else acc) []

-- ===========================================================================
-- Claim-side vocabulary (used in theorem statements)
-- ===========================================================================

/-- Keep the first occurrence of each string, skipping those already seen:
the claim's "in the order first encountered". -/
def firstOccurAux (seen : List String) : List String → List String
  | [] => []
  | s :: rest =>
    if pyInList s seen then firstOccurAux seen rest
    else s :: firstOccurAux (seen ++ [s]) rest

/-- The distinct statuses of a status sequence, in first-encounter order. -/
def firstOccur (l : List String) : List String := firstOccurAux [] l

/-- A status of the leading tier: its lower-cased text contains "todo". -/
def isTodoStatus (s : String) : Bool := pyIn "todo" (pyLower s)

/-- A status of the trailing tier: its lower-cased text contains "closed"
or "done". -/
def isClosedStatus (s : String) : Bool :=
  pyIn "closed" (pyLower s) || pyIn "done" (pyLower s)

-- ===========================================================================
-- Concrete documents used by the claim theorems and witnesses
-- ===========================================================================

/-- A raw item whose content has a present-but-null author, as GitHub's API
returns for issues authored by deleted accounts. -/
def itemWithNullAuthor : J :=
  J.obj [("content", J.obj
    [("number", J.num 42), ("title", J.str "Fix crash"),
     ("state", J.str "OPEN"),
     ("url", J.str "https://github.com/acme/widgets/issues/42"),
     ("author", J.null)])]

/-- The same raw item with the author field entirely absent. -/
def itemWithoutAuthor : J :=
  J.obj [("content", J.obj
    [("number", J.num 42), ("title", J.str "Fix crash"),
     ("state", J.str "OPEN"),
     ("url", J.str "https://github.com/acme/widgets/issues/42")])]

/-- A raw item whose content is a DraftIssue: title and body only. -/
def draftItem : J :=
  J.obj [("content", J.obj [("title", J.str "Sketch"), ("body", J.str "notes")])]

-- ===========================================================================
-- Helper lemmas: strings and loops
-- ===========================================================================

theorem beginsWith_iff (pat : List Char) :
    ∀ s : List Char, beginsWith pat s = true ↔ ∃ t, s = pat ++ t := by
  induction pat with
  | nil => intro s; simp [beginsWith]
  | cons a as ih =>
    intro s
    cases s with
    | nil => simp [beginsWith]
    | cons b bs =>
      constructor
      · intro h
        have h2 := h
        simp only [beginsWith, Bool.and_eq_true, beq_iff_eq] at h2
        obtain ⟨hab, hrest⟩ := h2
        obtain ⟨t, rfl⟩ := (ih bs).mp hrest
        subst hab
        exact ⟨t, rfl⟩
      · rintro ⟨t, ht⟩
        injection ht with h1 h2
        subst h1
        simp [beginsWith, (ih bs).mpr ⟨t, h2⟩]

theorem pyInChars_nil (l : List Char) : pyInChars [] l = true := by
  cases l <;> simp [pyInChars, beginsWith]

theorem pyIn_empty (s : String) : pyIn "" s = true := by
  simpa [pyIn] using pyInChars_nil s.data

theorem pyLower_eq_empty_iff (t : String) : pyLower t = "" ↔ t = "" := by
  constructor
  · intro h
    have hd : (pyLower t).data = ("" : String).data := by rw [h]
    simp [pyLower] at hd
    exact String.ext hd
  · rintro rfl; rfl

theorem findFirst_eq_none {p : α → Bool} :
    ∀ {l : List α}, (∀ x ∈ l, p x = false) → findFirst p l = none := by
  intro l
  induction l with
  | nil => intro _; rfl
  | cons x xs ih =>
    intro h
    simp [findFirst, h x (by simp)]
    exact ih (fun y hy => h y (by simp [hy]))

theorem findFirst_some_of {p : α → Bool} :
    ∀ {l : List α} {x : α}, x ∈ l → p x = true →
      ∃ y, findFirst p l = some y ∧ p y = true := by
  intro l
  induction l with
  | nil => intro x hx; simp at hx
  | cons a as ih =>
    intro x hx hpx
    cases ha : p a with
    | true => exact ⟨a, by simp [findFirst, ha], ha⟩
    | false =>
      have hxas : x ∈ as := by
        rcases List.mem_cons.mp hx with rfl | h
        · simp [hpx] at ha
        · exact h
      obtain ⟨y, hy, hpy⟩ := ih hxas hpx
      exact ⟨y, by simp [findFirst, ha, hy], hpy⟩

theorem foldl_append_filter {β : Type} (p : β → Bool) :
    ∀ (l acc : List β),
      l.foldl (fun acc c => if p c then acc ++ [c] else acc) acc = acc ++ l.filter p := by
  intro l
  induction l with
  | nil => intro acc; simp
  | cons c cs ih =>
    intro acc
    cases hc : p c with
    | true => simp [List.foldl, hc, ih, List.filter_cons]
    | false => simp [List.foldl, hc, ih, List.filter_cons]

-- ===========================================================================
-- C9: the commit filter
-- ===========================================================================

/-- C9.  filter_commits_by_start returns exactly the subsequence of commits
whose message starts with the given string, under literal, case-sensitive,
code-point-wise comparison with no trimming: it equals the order-preserving
filter, is a sublist of the input (relative order of kept commits is
unchanged), and a commit is in the output iff it is in the input and its
message's character sequence extends the given string's. -/
theorem c9_commit_filter_exact (commits : List Commit) (pfx : String) :
    filter_commits_by_start commits pfx
      = commits.filter (fun c => pyStartsWith c.message pfx)
    ∧ (filter_commits_by_start commits pfx).Sublist commits
    ∧ ∀ c : Commit, c ∈ filter_commits_by_start commits pfx ↔
        c ∈ commits ∧ ∃ t, c.message.data = pfx.data ++ t := by
  have h1 : filter_commits_by_start commits pfx
      = commits.filter (fun c => pyStartsWith c.message pfx) := by
    simpa [filter_commits_by_start] using
      foldl_append_filter (fun c => pyStartsWith c.message pfx) commits []
  refine ⟨h1, ?_, ?_⟩
  · rw [h1]; exact List.filter_sublist _
  · intro c
    rw [h1]
    simp [List.mem_filter, pyStartsWith, beginsWith_iff]

-- ===========================================================================
-- C8: exact-id rule takes precedence
-- ===========================================================================

/-- C8.  For every summary list and every identifier equal to some
summary's id (verbatim, case-sensitive), the resolver returns that
identifier, regardless of every title and number in the list: the exact-id
rule fires before the number, exact-title and partial-title rules are ever
consulted. -/
theorem c8_exact_id_first (projects : List ProjectSummary) (identifier : String)
    (h : ∃ p ∈ projects, p.id = identifier) :
    find_project_in_list projects identifier = .ok identifier := by
  obtain ⟨p, hp, hid⟩ := h
  obtain ⟨y, hy, _⟩ :=
    findFirst_some_of (p := fun q => q.id == identifier) hp (beq_iff_eq.mpr hid)
  simp [find_project_in_list, hy]

/-- Witness for C8 at a list whose titles and numbers would also match
later rules. -/
theorem c8_exact_id_first_witness :
    find_project_in_list
      [⟨"7", "PVT_x", 7⟩, ⟨"PVT_x", "7", 9⟩] "PVT_x" = .ok "PVT_x" :=
  c8_exact_id_first _ _ ⟨⟨"PVT_x", "7", 9⟩, by simp, rfl⟩

-- ===========================================================================
-- C7: the empty identifier (corrected)
-- ===========================================================================

/-- Counterexample to C7 as stated: a one-summary list meeting every
hypothesis of the claim (id "PVT_1" nonempty, number rendering "1"
nonempty, title "Roadmap" nonempty), on which resolving the empty
identifier succeeds with the first summary's id instead of failing with
NotFound — the empty string is a substring of every title, so rule 4
always matches the first summary. -/
theorem c7_empty_identifier_cex :
    find_project_in_list [⟨"PVT_1", "Roadmap", 1⟩] "" = .ok "PVT_1"
    ∧ ("PVT_1" : String) ≠ "" ∧ ("Roadmap" : String) ≠ ""
    ∧ toString (1 : Nat) ≠ "" :=
  ⟨rfl, by decide, by decide, by decide⟩

/-- C7 as amended.  Over any nonempty summary list whose ids and titles
are nonempty, the empty identifier is missed by rules 1-3 but matched by
rule 4 against the first summary (empty-substring containment), so resolve
returns the first summary's id; over the empty summary list, resolve
always fails with NotFound carrying the identifier. -/
theorem c7_empty_identifier_amended :
    (∀ (ps : List ProjectSummary) (p : ProjectSummary) (rest : List ProjectSummary),
       ps = p :: rest → (∀ q ∈ ps, q.id ≠ "" ∧ q.title ≠ "") →
       find_project_in_list ps "" = .ok p.id)
    ∧ (∀ ident, find_project_in_list [] ident
        = .error ("Project not found: " ++ ident)) := by
  constructor
  · rintro ps p rest rfl hq
    have h1 : findFirst (fun q => q.id == "") (p :: rest) = none :=
      findFirst_eq_none (fun q hmem => beq_eq_false_iff_ne.mpr (hq q hmem).1)
    have h2 : pyIsDigit (pyLstrip '#' "") = false := rfl
    have h3 : findFirst (fun q => pyLower q.title == pyLower "") (p :: rest) = none := by
      refine findFirst_eq_none (fun q hmem => ?_)
      refine beq_eq_false_iff_ne.mpr (fun hc => ?_)
      exact (hq q hmem).2 ((pyLower_eq_empty_iff q.title).mp (by simpa using hc))
    have h4 : findFirst (fun q => pyIn (pyLower "") (pyLower q.title)) (p :: rest)
        = some p := by
      have hc : pyIn (pyLower "") (pyLower p.title) = true := by
        have he : pyLower "" = "" := rfl
        rw [he]; exact pyIn_empty _
      simp [findFirst, hc]
    simp [find_project_in_list, h1, h2, h3, h4]
  · intro ident
    simp [find_project_in_list, findFirst]

-- ===========================================================================
-- C5: the reference extractor's markers (corrected)
-- ===========================================================================

/-- Counterexample to C5 as stated: a canonical pull-request URL, which
contains the "/pull/" marker, yet the extraction inlined in
get_project_issues (the MCP normalizer) only recognizes "/issues/" and so
returns the empty-string sentinel pair — not ("acme", "widgets"). -/
theorem c5_mcp_pull_unresolved_cex :
    extract_repo_ref_mcp "https://github.com/acme/widgets/pull/7" = .ok ("", "")
    ∧ pyIn "/pull/" "https://github.com/acme/widgets/pull/7" = true
    ∧ ("" : String) ≠ "acme" :=
  ⟨rfl, rfl, by decide⟩

/-- C5 as amended.  The comment-navigation extractor (display_issue_details)
returns the slash-delimited segments at 0-indexed positions 3 and 4 as
(owner, repo) for every URL containing "/issues/" or "/pull/" that has at
least five segments, and Unresolvable for every URL containing neither
marker; the extraction inside the MCP normalizer recognizes only
"/issues/", so every URL without that marker — "/pull/" URLs included —
yields its Unresolvable sentinel there.  The claim's two examples hold for
the comment-navigation extractor. -/
theorem c5_extract_amended :
    (∀ (url p0 p1 p2 p3 p4 : String) (rest : List String),
       (pyIn "/issues/" url || pyIn "/pull/" url) = true →
       pySplit url '/' = p0 :: p1 :: p2 :: p3 :: p4 :: rest →
       extract_repo_ref_cli url = .ok (some (p3, p4)))
    ∧ (∀ url, pyIn "/issues/" url = false → pyIn "/pull/" url = false →
       extract_repo_ref_cli url = .ok none)
    ∧ (∀ url, pyIn "/issues/" url = false → extract_repo_ref_mcp url = .ok ("", ""))
    ∧ extract_repo_ref_cli "https://github.com/acme/widgets/issues/42"
        = .ok (some ("acme", "widgets"))
    ∧ extract_repo_ref_cli "https://github.com/acme/widgets" = .ok none := by
  refine ⟨?_, ?_, ?_, rfl, rfl⟩
  · intro url p0 p1 p2 p3 p4 rest hmark hsplit
    simp [extract_repo_ref_cli, hmark, hsplit]
  · intro url h1 h2
    simp [extract_repo_ref_cli, h1, h2]
  · intro url h1
    simp [extract_repo_ref_mcp, h1]

/-- Witness for C5 as amended: the general segment rule applied to a
concrete pull-request URL, and the no-marker rules applied to a bare
repository URL. -/
theorem c5_extract_amended_witness :
    extract_repo_ref_cli "https://github.com/acme/widgets/pull/7"
      = .ok (some ("acme", "widgets"))
    ∧ extract_repo_ref_cli "https://github.com" = .ok none
    ∧ extract_repo_ref_mcp "https://github.com/acme/widgets/pull/7" = .ok ("", "") :=
  ⟨c5_extract_amended.1 "https://github.com/acme/widgets/pull/7"
      "https:" "" "github.com" "acme" "widgets" ["pull", "7"] (by decide) (by decide),
   c5_extract_amended.2.1 "https://github.com" (by decide) (by decide),
   c5_extract_amended.2.2.1 "https://github.com/acme/widgets/pull/7" (by decide)⟩

-- ===========================================================================
-- C6: totality of the extractor (corrected)
-- ===========================================================================

/-- Counterexample to C6 as stated: the string "/issues/" contains the
marker but splits into only three slash-delimited segments, so the
position-3 segment extraction goes out of bounds and both copies of the
extractor raise IndexError instead of returning a pair or Unresolvable. -/
theorem c6_short_url_raises_cex :
    extract_repo_ref_cli "/issues/" = .error "IndexError"
    ∧ extract_repo_ref_mcp "/issues/" = .error "IndexError"
    ∧ (pySplit "/issues/" '/').length = 3 :=
  ⟨rfl, rfl, rfl⟩

/-- C6 as amended.  The extractors are total — returning a pair or the
Unresolvable outcome — on every input whose recognized markers come with
at least five slash-delimited segments; an input that contains a marker
but has fewer segments escapes this guarantee (and, by the
counterexample, actually fails). -/
theorem c6_extract_total_amended :
    (∀ url, ((pyIn "/issues/" url || pyIn "/pull/" url) = true →
        5 ≤ (pySplit url '/').length) →
      ∃ r, extract_repo_ref_cli url = .ok r)
    ∧ (∀ url, (pyIn "/issues/" url = true → 5 ≤ (pySplit url '/').length) →
      ∃ r, extract_repo_ref_mcp url = .ok r) := by
  have len5_shape : ∀ (l : List String), 5 ≤ l.length →
      ∃ a b c d e t, l = a :: b :: c :: d :: e :: t := by
    intro l h
    rcases l with _ | ⟨a, _ | ⟨b, _ | ⟨c, _ | ⟨d, _ | ⟨e, t⟩⟩⟩⟩⟩
    · simp at h
    · simp at h
    · simp at h
    · simp at h
    · simp at h
    · exact ⟨a, b, c, d, e, t, rfl⟩
  constructor
  · intro url hlen
    cases hmark : (pyIn "/issues/" url || pyIn "/pull/" url) with
    | false => exact ⟨none, by simp [extract_repo_ref_cli, hmark]⟩
    | true =>
      obtain ⟨a, b, c, d, e, t, hsplit⟩ := len5_shape _ (hlen hmark)
      refine ⟨some (d, e), ?_⟩
      simp only [extract_repo_ref_cli]
      rw [hmark, hsplit]
      rfl
  · intro url hlen
    cases hmark : pyIn "/issues/" url with
    | false => exact ⟨("", ""), by simp [extract_repo_ref_mcp, hmark]⟩
    | true =>
      obtain ⟨a, b, c, d, e, t, hsplit⟩ := len5_shape _ (hlen hmark)
      refine ⟨(d, e), ?_⟩
      simp only [extract_repo_ref_mcp]
      rw [hmark, hsplit]
      rfl

/-- Witness for C6 as amended, at a canonical issue URL (seven segments)
and at a bare URL with no marker. -/
theorem c6_extract_total_amended_witness :
    (∃ r, extract_repo_ref_cli "https://github.com/acme/widgets/issues/42" = .ok r)
    ∧ (∃ r, extract_repo_ref_mcp "https://github.com/acme/widgets" = .ok r) :=
  ⟨c6_extract_total_amended.1 "https://github.com/acme/widgets/issues/42"
      (fun _ => by decide),
   c6_extract_total_amended.2 "https://github.com/acme/widgets"
      (fun h => absurd h (by decide))⟩

-- ===========================================================================
-- C1: normalization of a present-but-null author (code bug)
-- ===========================================================================

/-- C1 is right about the intent and wrong about the code: the
item-normalization pass of get_project_issues raises AttributeError on an
item whose content carries a present-but-null author, because
`content.get("author", defaultdict)` returns the stored null (the default
applies only to an absent key) and null has no `.get`.  The same item with
the author key absent is normalized fine, with the author defaulted to
null — exhibiting that the defaulting only covers absence, not null. -/
theorem c1_normalize_null_author_raises :
    normalize_item itemWithNullAuthor = .error "AttributeError"
    ∧ normalize_item itemWithoutAuthor
      = .ok (some (J.str "No Status",
        { number := J.num 42, title := J.str "Fix crash", state := J.str "OPEN",
          author := J.null,
          url := "https://github.com/acme/widgets/issues/42",
          owner := "acme", repo := "widgets",
          status := J.str "No Status" })) :=
  ⟨rfl, rfl⟩

/-- Witness for C7 as amended, at a one-summary list and at the empty
list. -/
theorem c7_empty_identifier_amended_witness :
    find_project_in_list [⟨"PVT_9", "Tasks", 3⟩] "" = .ok "PVT_9"
    ∧ find_project_in_list [] "zzz" = .error ("Project not found: " ++ "zzz") :=
  ⟨c7_empty_identifier_amended.1 [⟨"PVT_9", "Tasks", 3⟩] ⟨"PVT_9", "Tasks", 3⟩ [] rfl
      (by decide),
   c7_empty_identifier_amended.2 "zzz"⟩

-- ===========================================================================
-- Helper lemmas: grouping
-- ===========================================================================

theorem pyInList_iff_mem (x : String) :
    ∀ l : List String, pyInList x l = true ↔ x ∈ l := by
  intro l
  induction l with
  | nil => simp [pyInList]
  | cons y ys ih =>
    by_cases h : x = y
    · subst h; simp [pyInList]
    · simp [pyInList, beq_eq_false_iff_ne.mpr h, ih, h]

theorem lookupGroup_isSome_iff {α : Type} (s : String) :
    ∀ acc : List (String × List α),
      (lookupGroup acc s).isSome = pyInList s (acc.map Prod.fst) := by
  intro acc
  induction acc with
  | nil => rfl
  | cons kv rest ih =>
    obtain ⟨k, v⟩ := kv
    by_cases h : k = s
    · subst h; simp [lookupGroup, pyInList]
    · simp [lookupGroup, pyInList, beq_eq_false_iff_ne.mpr h,
        beq_eq_false_iff_ne.mpr (Ne.symm h), ih]

theorem bucketAppendS_keys {α : Type} (key : String) (x : α) :
    ∀ acc : List (String × List α),
      (bucketAppendS key x acc).map Prod.fst = acc.map Prod.fst := by
  intro acc
  induction acc with
  | nil => rfl
  | cons kv rest ih =>
    obtain ⟨k, v⟩ := kv
    by_cases h : k = key
    · subst h; simp [bucketAppendS]
    · simp [bucketAppendS, beq_eq_false_iff_ne.mpr h, ih]

theorem lookupGroup_bucketAppendS_self {α : Type} (key : String) (x : α) :
    ∀ (acc : List (String × List α)) (c : List α),
      lookupGroup acc key = some c →
      lookupGroup (bucketAppendS key x acc) key = some (c ++ [x]) := by
  intro acc
  induction acc with
  | nil => intro c hc; simp [lookupGroup] at hc
  | cons kv rest ih =>
    intro c hc
    obtain ⟨k, v⟩ := kv
    by_cases h : k = key
    · subst h
      simp [lookupGroup] at hc
      subst hc
      simp [bucketAppendS, lookupGroup]
    · simp [lookupGroup, beq_eq_false_iff_ne.mpr h] at hc
      simp [bucketAppendS, lookupGroup, beq_eq_false_iff_ne.mpr h, ih _ hc]

theorem lookupGroup_bucketAppendS_other {α : Type} (key s : String) (x : α)
    (hne : s ≠ key) :
    ∀ acc : List (String × List α),
      lookupGroup (bucketAppendS key x acc) s = lookupGroup acc s := by
  intro acc
  induction acc with
  | nil => rfl
  | cons kv rest ih =>
    obtain ⟨k, v⟩ := kv
    by_cases hk : k = key
    · subst hk
      have hks : k ≠ s := Ne.symm hne
      simp [bucketAppendS, lookupGroup, beq_eq_false_iff_ne.mpr hks]
    · by_cases hs : k = s
      · subst hs; simp [bucketAppendS, lookupGroup, beq_eq_false_iff_ne.mpr hk]
      · simp [bucketAppendS, lookupGroup, beq_eq_false_iff_ne.mpr hk,
          beq_eq_false_iff_ne.mpr hs, ih]

theorem lookupGroup_append_some {α : Type} (s : String) (entry : String × List α) :
    ∀ (acc : List (String × List α)) (b : List α),
      lookupGroup acc s = some b → lookupGroup (acc ++ [entry]) s = some b := by
  intro acc
  induction acc with
  | nil => intro b hb; simp [lookupGroup] at hb
  | cons kv rest ih =>
    intro b hb
    obtain ⟨k, v⟩ := kv
    by_cases h : k = s
    · subst h; simp [lookupGroup] at hb; subst hb; simp [lookupGroup]
    · simp [lookupGroup, beq_eq_false_iff_ne.mpr h] at hb
      simp [lookupGroup, beq_eq_false_iff_ne.mpr h, ih _ hb]

theorem lookupGroup_append_none {α : Type} (s k : String) (v : List α) :
    ∀ acc : List (String × List α),
      lookupGroup acc s = none →
      lookupGroup (acc ++ [(k, v)]) s = (if k == s then some v else none) := by
  intro acc
  induction acc with
  | nil => intro _; rfl
  | cons kv rest ih =>
    intro hb
    obtain ⟨k0, v0⟩ := kv
    by_cases h : k0 = s
    · subst h; simp [lookupGroup] at hb
    · simp [lookupGroup, beq_eq_false_iff_ne.mpr h] at hb
      simp [lookupGroup, beq_eq_false_iff_ne.mpr h, ih hb]

theorem groupFold_keys {α : Type} :
    ∀ (items : List (String × α)) (acc : List (String × List α)),
      (groupFold acc items).map Prod.fst
        = acc.map Prod.fst ++ firstOccurAux (acc.map Prod.fst) (items.map Prod.fst) := by
  intro items
  induction items with
  | nil => intro acc; simp [groupFold, firstOccurAux]
  | cons it rest ih =>
    intro acc
    obtain ⟨st, x⟩ := it
    cases hl : lookupGroup acc st with
    | some c =>
      have hIn : pyInList st (acc.map Prod.fst) = true := by
        rw [← lookupGroup_isSome_iff]; simp [hl]
      simp [groupFold, hl, ih, bucketAppendS_keys, firstOccurAux, hIn]
    | none =>
      have hIn : pyInList st (acc.map Prod.fst) = false := by
        rw [← lookupGroup_isSome_iff]; simp [hl]
      simp [groupFold, hl, ih, firstOccurAux, hIn]

theorem mem_firstOccurAux (x : String) :
    ∀ (l seen : List String), x ∈ firstOccurAux seen l ↔ x ∈ l ∧ ¬ x ∈ seen := by
  intro l
  induction l with
  | nil => intro seen; simp [firstOccurAux]
  | cons s rest ih =>
    intro seen
    by_cases hs : pyInList s seen = true
    · have hsm : s ∈ seen := (pyInList_iff_mem s seen).mp hs
      simp only [firstOccurAux, if_pos hs, ih, List.mem_cons]
      constructor
      · rintro ⟨h1, h2⟩; exact ⟨Or.inr h1, h2⟩
      · rintro ⟨h1, h2⟩
        rcases h1 with rfl | h1
        · exact absurd hsm h2
        · exact ⟨h1, h2⟩
    · have hsm : ¬ s ∈ seen := fun hc => hs ((pyInList_iff_mem s seen).mpr hc)
      simp only [firstOccurAux, if_neg hs, List.mem_cons, ih, List.mem_append,
        List.mem_singleton]
      constructor
      · rintro (rfl | ⟨h1, h2⟩)
        · exact ⟨Or.inl rfl, hsm⟩
        · push_neg at h2
          exact ⟨Or.inr h1, h2.1⟩
      · rintro ⟨h1, h2⟩
        rcases h1 with rfl | h1
        · exact Or.inl rfl
        · by_cases hxs : x = s
          · exact Or.inl hxs
          · exact Or.inr ⟨h1, by push_neg; exact ⟨h2, hxs, by simp⟩⟩

theorem nodup_firstOccurAux :
    ∀ (l seen : List String), (firstOccurAux seen l).Nodup := by
  intro l
  induction l with
  | nil => intro seen; simp [firstOccurAux]
  | cons s rest ih =>
    intro seen
    by_cases hs : pyInList s seen = true
    · simpa only [firstOccurAux, if_pos hs] using ih seen
    · simp only [firstOccurAux, if_neg hs]
      refine List.nodup_cons.mpr ⟨?_, ih _⟩
      intro hc
      have h2 := ((mem_firstOccurAux s rest (seen ++ [s])).mp hc).2
      simp at h2

theorem lookupGroup_groupFold_some {α : Type} (s : String) :
    ∀ (items : List (String × α)) (acc : List (String × List α)) (b : List α),
      lookupGroup acc s = some b →
      lookupGroup (groupFold acc items) s
        = some (b ++ (items.filter (fun p => p.1 == s)).map Prod.snd) := by
  intro items
  induction items with
  | nil => intro acc b hb; simp [groupFold, hb]
  | cons it rest ih =>
    intro acc b hb
    obtain ⟨st, x⟩ := it
    cases hl : lookupGroup acc st with
    | some c =>
      by_cases hst : st = s
      · subst hst
        have hcb : c = b := by rw [hb] at hl; exact (Option.some.inj hl).symm
        subst hcb
        have hacc : lookupGroup (bucketAppendS st x acc) st = some (c ++ [x]) :=
          lookupGroup_bucketAppendS_self st x acc c hb
        simp only [groupFold, hl]
        rw [ih _ _ hacc]
        simp [List.filter_cons]
      · have hacc : lookupGroup (bucketAppendS st x acc) s = lookupGroup acc s :=
          lookupGroup_bucketAppendS_other st s x (Ne.symm hst) acc
        simp only [groupFold, hl]
        rw [ih _ _ (hacc.trans hb)]
        simp [List.filter_cons, beq_eq_false_iff_ne.mpr hst]
    | none =>
      by_cases hst : st = s
      · subst hst; rw [hb] at hl; cases hl
      · have hacc : lookupGroup (acc ++ [(st, [x])]) s = some b :=
          lookupGroup_append_some s (st, [x]) acc b hb
        simp only [groupFold, hl]
        rw [ih _ _ hacc]
        simp [List.filter_cons, beq_eq_false_iff_ne.mpr hst]

theorem lookupGroup_groupFold_none {α : Type} (s : String) :
    ∀ (items : List (String × α)) (acc : List (String × List α)),
      lookupGroup acc s = none →
      lookupGroup (groupFold acc items) s
        = (if pyInList s (items.map Prod.fst) then
             some ((items.filter (fun p => p.1 == s)).map Prod.snd)
           else none) := by
  intro items
  induction items with
  | nil => intro acc hb; simp [groupFold, hb, pyInList]
  | cons it rest ih =>
    intro acc hb
    obtain ⟨st, x⟩ := it
    cases hl : lookupGroup acc st with
    | some c =>
      by_cases hst : st = s
      · subst hst; rw [hb] at hl; cases hl
      · have hacc : lookupGroup (bucketAppendS st x acc) s = none :=
          (lookupGroup_bucketAppendS_other st s x (Ne.symm hst) acc).trans hb
        simp only [groupFold, hl]
        rw [ih _ hacc]
        have hno : (s == st) = false := beq_eq_false_iff_ne.mpr (Ne.symm hst)
        simp [List.filter_cons, beq_eq_false_iff_ne.mpr hst, pyInList, hno]
    | none =>
      by_cases hst : st = s
      · subst hst
        have hacc : lookupGroup (acc ++ [(st, [x])]) st = some [x] := by
          rw [lookupGroup_append_none st st [x] acc hb]
          simp
        simp only [groupFold, hl]
        rw [lookupGroup_groupFold_some st rest _ _ hacc]
        simp [List.filter_cons, pyInList]
      · have hacc : lookupGroup (acc ++ [(st, [x])]) s = none := by
          rw [lookupGroup_append_none s st [x] acc hb]
          simp [beq_eq_false_iff_ne.mpr hst]
        simp only [groupFold, hl]
        rw [ih _ hacc]
        have hno : (s == st) = false := beq_eq_false_iff_ne.mpr (Ne.symm hst)
        simp [List.filter_cons, beq_eq_false_iff_ne.mpr hst, pyInList, hno]

-- ===========================================================================
-- Helper lemmas: the three-tier ordering
-- ===========================================================================

theorem map_pair_fst {β : Type} (f : String → β) :
    ∀ l : List String, (l.map (fun s => (s, f s))).map Prod.fst = l := by
  intro l
  induction l with
  | nil => rfl
  | cons s rest ih => simp [ih]

theorem filter_pair_fst (f : String → String) (q : String → Bool) :
    ∀ l : List String,
      ((l.map (fun s => (s, f s))).filter (fun p => q p.2)).map Prod.fst
        = l.filter (fun s => q (f s)) := by
  intro l
  induction l with
  | nil => rfl
  | cons s rest ih =>
    cases hq : q (f s) with
    | true => simp [List.filter_cons, hq, ih]
    | false => simp [List.filter_cons, hq, ih]

theorem insItem_perm (x : String) :
    ∀ l : List String, (insItem x l).Perm (x :: l) := by
  intro l
  induction l with
  | nil => exact List.Perm.refl _
  | cons y ys ih =>
    by_cases h : strLe x y = true
    · simp [insItem, if_pos h]
    · rw [insItem, if_neg h]
      exact (List.Perm.cons y ih).trans (List.Perm.swap x y ys)

theorem insSort_perm : ∀ l : List String, (insSort l).Perm l := by
  intro l
  induction l with
  | nil => exact List.Perm.refl _
  | cons x xs ih =>
    exact (insItem_perm x (insSort xs)).trans (List.Perm.cons x ih)

theorem charsLe_total : ∀ a b : List Char, charsLe a b = true ∨ charsLe b a = true := by
  intro a
  induction a with
  | nil => intro b; left; rfl
  | cons x xs ih =>
    intro b
    cases b with
    | nil => right; rfl
    | cons y ys =>
      by_cases h1 : x.toNat < y.toNat
      · left; simp [charsLe, h1]
      · by_cases h2 : y.toNat < x.toNat
        · right; simp [charsLe, h2]
        · rcases ih ys with h | h
          · left; simp [charsLe, h1, h2, h]
          · right; simp [charsLe, h1, h2, h]

theorem charsLe_trans :
    ∀ a b c : List Char, charsLe a b = true → charsLe b c = true →
      charsLe a c = true := by
  intro a
  induction a with
  | nil => intro b c _ _; rfl
  | cons x xs ih =>
    intro b c hab hbc
    cases b with
    | nil => simp [charsLe] at hab
    | cons y ys =>
      cases c with
      | nil => simp [charsLe] at hbc
      | cons z zs =>
        by_cases h1 : x.toNat < y.toNat
        · by_cases h2 : y.toNat < z.toNat
          · simp [charsLe, Nat.lt_trans h1 h2]
          · by_cases h3 : z.toNat < y.toNat
            · simp [charsLe, h2, h3] at hbc
            · have hyz : y.toNat = z.toNat :=
                Nat.le_antisymm (Nat.not_lt.mp h3) (Nat.not_lt.mp h2)
              have hxz : x.toNat < z.toNat := hyz ▸ h1
              simp [charsLe, hxz]
        · by_cases h1' : y.toNat < x.toNat
          · simp [charsLe, h1, h1'] at hab
          · have hxy : x.toNat = y.toNat :=
              Nat.le_antisymm (Nat.not_lt.mp h1') (Nat.not_lt.mp h1)
            have hab' : charsLe xs ys = true := by
              simpa [charsLe, h1, h1'] using hab
            by_cases h2 : y.toNat < z.toNat
            · have hxz : x.toNat < z.toNat := hxy ▸ h2
              simp [charsLe, hxz]
            · by_cases h3 : z.toNat < y.toNat
              · simp [charsLe, h2, h3] at hbc
              · have hyz : y.toNat = z.toNat :=
                  Nat.le_antisymm (Nat.not_lt.mp h3) (Nat.not_lt.mp h2)
                have hbc' : charsLe ys zs = true := by
                  simpa [charsLe, h2, h3] using hbc
                have hxz : x.toNat = z.toNat := hxy.trans hyz
                simp [charsLe, hxz, Nat.lt_irrefl, ih ys zs hab' hbc']

theorem strLe_total (a b : String) : strLe a b = true ∨ strLe b a = true :=
  charsLe_total a.data b.data

theorem strLe_trans {a b c : String} (h1 : strLe a b = true) (h2 : strLe b c = true) :
    strLe a c = true :=
  charsLe_trans a.data b.data c.data h1 h2

theorem insItem_pairwise (x : String) :
    ∀ l : List String, l.Pairwise (fun a b => strLe a b = true) →
      (insItem x l).Pairwise (fun a b => strLe a b = true) := by
  intro l
  induction l with
  | nil => intro _; simp [insItem]
  | cons y ys ih =>
    intro hp
    obtain ⟨hy, hys⟩ := List.pairwise_cons.mp hp
    by_cases h : strLe x y = true
    · rw [insItem, if_pos h]
      refine List.pairwise_cons.mpr ⟨?_, hp⟩
      intro z hz
      rcases List.mem_cons.mp hz with rfl | hz'
      · exact h
      · exact strLe_trans h (hy z hz')
    · have hxy : strLe y x = true := (strLe_total x y).resolve_left h
      rw [insItem, if_neg h]
      refine List.pairwise_cons.mpr ⟨?_, ih hys⟩
      intro z hz
      have hz' : z ∈ x :: ys := (insItem_perm x ys).mem_iff.mp hz
      rcases List.mem_cons.mp hz' with rfl | hz''
      · exact hxy
      · exact hy z hz''

theorem insSort_pairwise :
    ∀ l : List String, (insSort l).Pairwise (fun a b => strLe a b = true) := by
  intro l
  induction l with
  | nil => simp [insSort]
  | cons x xs ih => exact insItem_pairwise x _ ih

theorem pyInList_append (x : String) :
    ∀ a b : List String, pyInList x (a ++ b) = (pyInList x a || pyInList x b) := by
  intro a b
  induction a with
  | nil => simp [pyInList]
  | cons y ys ih =>
    by_cases h : x = y
    · subst h; simp [pyInList]
    · simp [pyInList, beq_eq_false_iff_ne.mpr h, ih]

theorem pyInList_filter_of_mem (s : String) (q : String → Bool)
    {keys : List String} (hs : s ∈ keys) :
    pyInList s (keys.filter q) = q s := by
  cases hq : q s with
  | true =>
    exact (pyInList_iff_mem _ _).mpr (List.mem_filter.mpr ⟨hs, hq⟩)
  | false =>
    cases hp : pyInList s (keys.filter q) with
    | false => rfl
    | true =>
      exfalso
      have hm := List.mem_filter.mp ((pyInList_iff_mem _ _).mp hp)
      rw [hm.2] at hq
      cases hq

theorem statusTiers_decomp (keys : List String) :
    statusTiers (keys.map (fun s => (s, pyLower s)))
      = keys.filter (fun s => isTodoStatus s)
        ++ insSort (keys.filter (fun s => !isTodoStatus s && !isClosedStatus s))
        ++ keys.filter (fun s => isClosedStatus s) := by
  have h1 := filter_pair_fst pyLower (fun w => pyIn "todo" w) keys
  have h2 := filter_pair_fst pyLower (fun w => pyIn "closed" w || pyIn "done" w) keys
  have h0 := map_pair_fst pyLower keys
  have hmid : ∀ s ∈ keys,
      (!pyInList s (keys.filter (fun s => pyIn "todo" (pyLower s))
          ++ keys.filter (fun s => pyIn "closed" (pyLower s) || pyIn "done" (pyLower s))))
        = (!pyIn "todo" (pyLower s)
            && !(pyIn "closed" (pyLower s) || pyIn "done" (pyLower s))) := by
    intro s hs
    rw [pyInList_append,
      pyInList_filter_of_mem s (fun s => pyIn "todo" (pyLower s)) hs,
      pyInList_filter_of_mem s (fun s => pyIn "closed" (pyLower s) || pyIn "done" (pyLower s)) hs,
      Bool.not_or]
  simp only [statusTiers, isTodoStatus, isClosedStatus, h1, h2, h0]
  rw [List.filter_congr hmid]

theorem organize_labels {α : Type} (items : List (String × α)) :
    (organize items).map Prod.fst
      = statusTiers (((groupFold ([] : List (String × List α)) items).map Prod.fst).map
          (fun s => (s, pyLower s))) := by
  unfold organize
  exact map_pair_fst _ _

theorem mem_statusTiers_sub (kp : List (String × String)) (x : String)
    (h : x ∈ statusTiers kp) : x ∈ kp.map Prod.fst := by
  simp only [statusTiers] at h
  rcases List.mem_append.mp h with h | h
  · rcases List.mem_append.mp h with h | h
    · obtain ⟨p, hp, rfl⟩ := List.mem_map.mp h
      exact List.mem_map.mpr ⟨p, (List.mem_filter.mp hp).1, rfl⟩
    · have h2 := (insSort_perm _).mem_iff.mp h
      exact (List.mem_filter.mp h2).1
  · obtain ⟨p, hp, rfl⟩ := List.mem_map.mp h
    exact List.mem_map.mpr ⟨p, (List.mem_filter.mp hp).1, rfl⟩

theorem groupFold_keys_nil {α : Type} (items : List (String × α)) :
    (groupFold ([] : List (String × List α)) items).map Prod.fst
      = firstOccur (items.map Prod.fst) := by
  simpa [firstOccur] using groupFold_keys items ([] : List (String × List α))

theorem mem_firstOccur (x : String) (l : List String) :
    x ∈ firstOccur l ↔ x ∈ l := by
  simp [firstOccur, mem_firstOccurAux]

theorem nodup_firstOccur (l : List String) : (firstOccur l).Nodup :=
  nodup_firstOccurAux l []

theorem organize_mem_group {α : Type} (items : List (String × α)) (s : String)
    (g : List α) (h : (s, g) ∈ organize items) :
    s ∈ items.map Prod.fst
    ∧ g = (items.filter (fun p => p.1 == s)).map Prod.snd := by
  unfold organize at h
  obtain ⟨s', hs', heq⟩ := List.mem_map.mp h
  have hfst : s' = s := congrArg Prod.fst heq
  have hsnd := congrArg Prod.snd heq
  subst hfst
  have hkeys : s' ∈ (groupFold ([] : List (String × List α)) items).map Prod.fst := by
    have := mem_statusTiers_sub _ _ hs'
    rwa [map_pair_fst] at this
  have hmem : s' ∈ items.map Prod.fst := by
    rw [groupFold_keys_nil] at hkeys
    exact (mem_firstOccur _ _).mp hkeys
  refine ⟨hmem, ?_⟩
  have hlook := lookupGroup_groupFold_none s' items
    ([] : List (String × List α)) rfl
  rw [(pyInList_iff_mem _ _).mpr hmem, if_pos rfl] at hlook
  simp only at hsnd
  rw [← hsnd]
  simp [hlook]

-- ===========================================================================
-- Helper lemmas: counting groups
-- ===========================================================================

theorem count_filter_nodup (s : String) (q : String → Bool) :
    ∀ l : List String, l.Nodup →
      (l.filter q).count s = (if s ∈ l ∧ q s = true then 1 else 0) := by
  intro l
  induction l with
  | nil => intro _; simp
  | cons y ys ih =>
    intro hnd
    obtain ⟨hy, hys⟩ := List.nodup_cons.mp hnd
    by_cases hsy : s = y
    · subst hsy
      cases hq : q s with
      | true =>
        rw [List.filter_cons_of_pos hq, List.count_cons_self]
        have h0 : (ys.filter q).count s = 0 := by
          rw [ih hys]
          simp [hy]
        simp [h0, hq]
      | false =>
        rw [List.filter_cons_of_neg (by simp [hq])]
        rw [ih hys]
        simp [hy, hq]
    · cases hq : q y with
      | true =>
        rw [List.filter_cons_of_pos hq, List.count_cons_of_ne hsy]
        rw [ih hys]
        simp [hsy, List.mem_cons]
      | false =>
        rw [List.filter_cons_of_neg (by simp [hq])]
        rw [ih hys]
        simp [hsy, List.mem_cons]

-- ===========================================================================
-- C4: the three-tier ordering
-- ===========================================================================

/-- C4.  For every item list, organize orders the status groups in three
tiers: first the statuses whose lower-cased text contains "todo", in
first-encounter order; last those whose lower-cased text contains "closed"
or "done", in first-encounter order; between them every other status
(the "No Status" sentinel included), sorted lexicographically ascending by
the exact, non-lower-cased status string (the middle block is ordered
pairwise by code-point comparison and is a permutation of the remaining
statuses).  On the claim's example the group order is Todo, In Progress,
No Status, Done, Closed. -/
theorem c4_three_tier_order :
    (∀ items : List (String × Nat),
      ∃ M : List String,
        (organize items).map Prod.fst
          = (firstOccur (items.map Prod.fst)).filter (fun s => isTodoStatus s)
            ++ M
            ++ (firstOccur (items.map Prod.fst)).filter (fun s => isClosedStatus s)
        ∧ M.Perm ((firstOccur (items.map Prod.fst)).filter
            (fun s => !isTodoStatus s && !isClosedStatus s))
        ∧ M.Pairwise (fun a b => strLe a b = true))
    ∧ (organize [("Done", (0:Nat)), ("Todo", 1), ("In Progress", 2),
        ("No Status", 3), ("Closed", 4)]).map Prod.fst
        = ["Todo", "In Progress", "No Status", "Done", "Closed"] := by
  constructor
  · intro items
    refine ⟨insSort ((firstOccur (items.map Prod.fst)).filter
        (fun s => !isTodoStatus s && !isClosedStatus s)), ?_, insSort_perm _,
        insSort_pairwise _⟩
    rw [organize_labels, groupFold_keys_nil, statusTiers_decomp]
  · rfl

-- ===========================================================================
-- C3: organize is not a partition (corrected)
-- ===========================================================================

/-- Counterexample to C3 as stated: on a single item whose status
"Todo Done" lower-cases to text containing both "todo" and "done", the
status lands in both the leading and the trailing tier list, so the
organized board shows the same status as two groups and the item appears
in both — not the claimed exactly-one group per status. -/
theorem c3_duplicate_group_cex :
    organize [("Todo Done", (0:Nat))]
      = [("Todo Done", [0]), ("Todo Done", [0])] := rfl

/-- C3 as amended.  organize partitions its input per label: a status
labels exactly one group unless its lower-cased text contains "todo"
together with "closed" or "done", in which case the same status labels
exactly two groups (once in the leading tier, once more in the trailing
tier); and every group labeled s carries exactly the input items whose
status is s, in input order (so an item under a doubly-listed status is
displayed twice). -/
theorem c3_partition_amended (items : List (String × Nat)) (s : String) :
    (((organize items).map Prod.fst).count s
      = if s ∈ items.map Prod.fst
        then (if isTodoStatus s && isClosedStatus s then 2 else 1)
        else 0)
    ∧ ∀ g : List Nat, (s, g) ∈ organize items →
        g = (items.filter (fun p => p.1 == s)).map Prod.snd := by
  constructor
  · have hlab : (organize items).map Prod.fst
        = (firstOccur (items.map Prod.fst)).filter (fun t => isTodoStatus t)
          ++ insSort ((firstOccur (items.map Prod.fst)).filter
              (fun t => !isTodoStatus t && !isClosedStatus t))
          ++ (firstOccur (items.map Prod.fst)).filter (fun t => isClosedStatus t) := by
      rw [organize_labels, groupFold_keys_nil, statusTiers_decomp]
    rw [hlab]
    have hnd := nodup_firstOccur (items.map Prod.fst)
    rw [List.count_append, List.count_append,
      List.Perm.count_eq (insSort_perm _) s,
      count_filter_nodup s _ _ hnd, count_filter_nodup s _ _ hnd,
      count_filter_nodup s _ _ hnd]
    by_cases hmem : s ∈ items.map Prod.fst
    · by_cases ht : isTodoStatus s = true
      · by_cases hc : isClosedStatus s = true
        · simp [mem_firstOccur, hmem, ht, hc]
        · simp [mem_firstOccur, hmem, ht, hc]
      · by_cases hc : isClosedStatus s = true
        · simp [mem_firstOccur, hmem, ht, hc]
        · simp [mem_firstOccur, hmem, ht, hc]
    · simp [mem_firstOccur, hmem]
  · intro g hg
    exact (organize_mem_group items s g hg).2

/-- Witness for C3 as amended: the status "Todo Done" is counted as two
group labels on a concrete board, and the membership rule instantiated at
its group. -/
theorem c3_partition_amended_witness :
    (((organize [("Todo Done", (0:Nat)), ("Active", 1)]).map Prod.fst).count
        "Todo Done" = 2)
    ∧ ([0] : List Nat)
        = (([("Todo Done", (0:Nat)), ("Active", 1)].filter
            (fun p => p.1 == "Todo Done")).map Prod.snd) := by
  constructor
  · rw [(c3_partition_amended [("Todo Done", (0:Nat)), ("Active", 1)] "Todo Done").1]
    decide
  · exact (c3_partition_amended [("Todo Done", (0:Nat)), ("Active", 1)] "Todo Done").2
      [0] (by decide)

-- ===========================================================================
-- C10: groups are never empty
-- ===========================================================================

/-- C10.  Every status group in the organized board is nonempty: a group
is created only at the moment an item is assigned to it, and each ordered
label's group carries exactly the items of that status, of which there is
at least one. -/
theorem c10_groups_nonempty (items : List (String × Nat)) (s : String)
    (g : List Nat) (h : (s, g) ∈ organize items) : g ≠ [] := by
  obtain ⟨hmem, hg⟩ := organize_mem_group items s g h
  obtain ⟨p, hp, hps⟩ := List.mem_map.mp hmem
  have hpf : p ∈ items.filter (fun p => p.1 == s) :=
    List.mem_filter.mpr ⟨hp, beq_iff_eq.mpr hps⟩
  have hsnd : p.2 ∈ (items.filter (fun p => p.1 == s)).map Prod.snd :=
    List.mem_map.mpr ⟨p, hpf, rfl⟩
  rw [hg]
  exact List.ne_nil_of_mem hsnd

/-- Witness for C10 at a two-status board. -/
theorem c10_groups_nonempty_witness : ([1] : List Nat) ≠ [] :=
  c10_groups_nonempty [("Todo", 1), ("Done", 2)] "Todo" [1] (by decide)

-- ===========================================================================
-- Helper lemmas: the CLI board pipeline
-- ===========================================================================

theorem bindE_ok {α β : Type} (x : Except String α) (f : α → Except String β)
    (b : β) (h : (x >>= f) = .ok b) : ∃ a, x = .ok a ∧ f a = .ok b := by
  cases x with
  | error e => simp [Bind.bind, Except.bind] at h
  | ok a => exact ⟨a, rfl, by simpa [Bind.bind, Except.bind] using h⟩

theorem mapE_cons_ok {α β : Type} (f : α → Except String β) (a : α) (as : List α)
    (ys : List β) (h : mapE f (a :: as) = .ok ys) :
    ∃ b bs, f a = .ok b ∧ mapE f as = .ok bs ∧ ys = b :: bs := by
  simp only [mapE] at h
  obtain ⟨b, hb, h⟩ := bindE_ok _ _ _ h
  obtain ⟨bs, hbs, h⟩ := bindE_ok _ _ _ h
  exact ⟨b, bs, hb, hbs, by simpa using h.symm⟩

theorem mapE_ok_mem {α β : Type} (f : α → Except String β) :
    ∀ (l : List α) (ys : List β), mapE f l = .ok ys →
      ∀ x ∈ l, ∃ y, f x = .ok y ∧ y ∈ ys := by
  intro l
  induction l with
  | nil => intro ys _ x hx; simp at hx
  | cons a as ih =>
    intro ys h x hx
    obtain ⟨b, bs, hb, hbs, rfl⟩ := mapE_cons_ok f a as ys h
    rcases List.mem_cons.mp hx with rfl | hx'
    · exact ⟨b, hb, List.mem_cons_self _ _⟩
    · obtain ⟨y, hy, hymem⟩ := ih bs hbs x hx'
      exact ⟨y, hy, List.mem_cons_of_mem _ hymem⟩

theorem collectRows_mem :
    ∀ (l : List J) (rs : List Row), collectRows l = .ok rs →
      ∀ (it : J) (r : Row), it ∈ l → renderRow it = .ok (some r) → r ∈ rs := by
  intro l
  induction l with
  | nil => intro rs _ it r hit; simp at hit
  | cons a as ih =>
    intro rs h it r hit hr
    simp only [collectRows] at h
    obtain ⟨o, ho, h⟩ := bindE_ok _ _ _ h
    cases o with
    | none =>
      rcases List.mem_cons.mp hit with rfl | hit'
      · rw [ho] at hr; simp at hr
      · exact ih rs h it r hit' hr
    | some r0 =>
      obtain ⟨rs', hrs', h⟩ := bindE_ok _ _ _ h
      have hys : rs = r0 :: rs' := by simpa using h.symm
      subst hys
      rcases List.mem_cons.mp hit with rfl | hit'
      · rw [ho] at hr
        have hr0 : r0 = r := by simpa using hr
        subst hr0
        exact List.mem_cons_self _ _
      · exact List.mem_cons_of_mem _ (ih rs' hrs' it r hit' hr)

theorem scalarEq_eq : ∀ a b : J, scalarEq a b = true → a = b := by
  intro a b h
  cases a <;> cases b <;> simp_all [scalarEq]

theorem scalarEq_refl (k : J) (hk : hashable k = true) : scalarEq k k = true := by
  cases k with
  | null => rfl
  | str v => simp [scalarEq]
  | num v => simp [scalarEq]
  | bool v => simp [scalarEq]
  | arr xs => simp [hashable] at hk
  | obj kvs => simp [hashable] at hk

theorem lookupJ_bucketAppendJ_self (key x : J) :
    ∀ (acc : List (J × List J)) (c : List J),
      lookupJ acc key = some c →
      lookupJ (bucketAppendJ key x acc) key = some (c ++ [x]) := by
  intro acc
  induction acc with
  | nil => intro c hc; simp [lookupJ] at hc
  | cons kv rest ih =>
    intro c hc
    obtain ⟨k0, v0⟩ := kv
    cases hs : scalarEq k0 key with
    | true =>
      rw [lookupJ, if_pos hs] at hc
      have hv : v0 = c := by simpa using hc
      subst hv
      rw [bucketAppendJ, if_pos hs, lookupJ, if_pos hs]
    | false =>
      rw [lookupJ, if_neg (by simp [hs])] at hc
      rw [bucketAppendJ, if_neg (by simp [hs]), lookupJ, if_neg (by simp [hs])]
      exact ih c hc

theorem lookupJ_bucketAppendJ_mem (key x k it : J) :
    ∀ (acc : List (J × List J)) (b : List J),
      lookupJ acc k = some b → it ∈ b →
      ∃ b2, lookupJ (bucketAppendJ key x acc) k = some b2 ∧ it ∈ b2 := by
  intro acc
  induction acc with
  | nil => intro b hb; simp [lookupJ] at hb
  | cons kv rest ih =>
    intro b hb hit
    obtain ⟨k0, v0⟩ := kv
    cases hk0 : scalarEq k0 key with
    | true =>
      cases hks : scalarEq k0 k with
      | true =>
        rw [lookupJ, if_pos hks] at hb
        have hv : v0 = b := by simpa using hb
        subst hv
        refine ⟨v0 ++ [x], ?_, List.mem_append_left _ hit⟩
        rw [bucketAppendJ, if_pos hk0, lookupJ, if_pos hks]
      | false =>
        rw [lookupJ, if_neg (by simp [hks])] at hb
        refine ⟨b, ?_, hit⟩
        rw [bucketAppendJ, if_pos hk0, lookupJ, if_neg (by simp [hks])]
        exact hb
    | false =>
      cases hks : scalarEq k0 k with
      | true =>
        rw [lookupJ, if_pos hks] at hb
        have hv : v0 = b := by simpa using hb
        subst hv
        refine ⟨v0, ?_, hit⟩
        rw [bucketAppendJ, if_neg (by simp [hk0]), lookupJ, if_pos hks]
      | false =>
        rw [lookupJ, if_neg (by simp [hks])] at hb
        obtain ⟨b2, hb2, hitb2⟩ := ih b hb hit
        refine ⟨b2, ?_, hitb2⟩
        rw [bucketAppendJ, if_neg (by simp [hk0]), lookupJ, if_neg (by simp [hks])]
        exact hb2

theorem lookupJ_append_some (k : J) (entry : J × List J) :
    ∀ (acc : List (J × List J)) (b : List J),
      lookupJ acc k = some b → lookupJ (acc ++ [entry]) k = some b := by
  intro acc
  induction acc with
  | nil => intro b hb; simp [lookupJ] at hb
  | cons kv rest ih =>
    intro b hb
    obtain ⟨k0, v0⟩ := kv
    cases hks : scalarEq k0 k with
    | true =>
      rw [lookupJ, if_pos hks] at hb
      rw [List.cons_append, lookupJ, if_pos hks]
      exact hb
    | false =>
      rw [lookupJ, if_neg (by simp [hks])] at hb
      rw [List.cons_append, lookupJ, if_neg (by simp [hks])]
      exact ih b hb

theorem lookupJ_append_none (k key : J) (v : List J) :
    ∀ acc : List (J × List J),
      lookupJ acc k = none →
      lookupJ (acc ++ [(key, v)]) k = (if scalarEq key k then some v else none) := by
  intro acc
  induction acc with
  | nil => intro _; rfl
  | cons kv rest ih =>
    intro hb
    obtain ⟨k0, v0⟩ := kv
    cases hks : scalarEq k0 k with
    | true => rw [lookupJ, if_pos hks] at hb; cases hb
    | false =>
      rw [lookupJ, if_neg (by simp [hks])] at hb
      rw [List.cons_append, lookupJ, if_neg (by simp [hks])]
      exact ih hb

theorem lookupJ_some_key_mem :
    ∀ (acc : List (J × List J)) (k : J) (b : List J),
      lookupJ acc k = some b → k ∈ acc.map Prod.fst := by
  intro acc
  induction acc with
  | nil => intro k b hb; simp [lookupJ] at hb
  | cons kv rest ih =>
    intro k b hb
    obtain ⟨k0, v0⟩ := kv
    cases hks : scalarEq k0 k with
    | true =>
      have : k0 = k := scalarEq_eq _ _ hks
      subst this
      simp
    | false =>
      rw [lookupJ, if_neg (by simp [hks])] at hb
      exact List.mem_cons_of_mem _ (ih k b hb)

theorem cliGroupFold_mem :
    ∀ (tagged : List (J × J)) (acc groups : List (J × List J)) (k it : J),
      cliGroupFold acc tagged = .ok groups →
      ((k, it) ∈ tagged ∨ ∃ b, lookupJ acc k = some b ∧ it ∈ b) →
      ∃ b, lookupJ groups k = some b ∧ it ∈ b := by
  intro tagged
  induction tagged with
  | nil =>
    intro acc groups k it h hcase
    have hag : acc = groups := by simpa [cliGroupFold] using h
    subst hag
    rcases hcase with hmem | hb
    · simp at hmem
    · exact hb
  | cons p rest ih =>
    intro acc groups k it h hcase
    obtain ⟨st, x⟩ := p
    cases hh : hashable st with
    | false => simp [cliGroupFold, hh] at h
    | true =>
      cases hl : lookupJ acc st with
      | some c =>
        have h' : cliGroupFold (bucketAppendJ st x acc) rest = .ok groups := by
          simpa [cliGroupFold, hh, hl] using h
        apply ih _ groups k it h'
        rcases hcase with hmem | ⟨b, hb, hitb⟩
        · rcases List.mem_cons.mp hmem with heq | hmem'
          · have hk : k = st := congrArg Prod.fst heq
            have hx : it = x := congrArg Prod.snd heq
            subst hk; subst hx
            exact Or.inr ⟨c ++ [it], lookupJ_bucketAppendJ_self k it acc c hl,
              List.mem_append_right _ (List.mem_singleton.mpr rfl)⟩
          · exact Or.inl hmem'
        · exact Or.inr (lookupJ_bucketAppendJ_mem st x k it acc b hb hitb)
      | none =>
        have h' : cliGroupFold (acc ++ [(st, [x])]) rest = .ok groups := by
          simpa [cliGroupFold, hh, hl] using h
        apply ih _ groups k it h'
        rcases hcase with hmem | ⟨b, hb, hitb⟩
        · rcases List.mem_cons.mp hmem with heq | hmem'
          · have hk : k = st := congrArg Prod.fst heq
            have hx : it = x := congrArg Prod.snd heq
            subst hk; subst hx
            refine Or.inr ⟨[it], ?_, List.mem_singleton.mpr rfl⟩
            rw [lookupJ_append_none k k [it] acc hl, if_pos (scalarEq_refl k hh)]
          · exact Or.inl hmem'
        · exact Or.inr ⟨b, lookupJ_append_some k (st, [x]) acc b hb, hitb⟩

theorem mapE_validate_snd :
    ∀ (keys : List J) (kp : List (String × String)),
      mapE (fun k => match k with
        | J.str v => Except.ok (v, pyLower v)
        | _ => Except.error "AttributeError") keys = .ok kp →
      ∀ p ∈ kp, p.2 = pyLower p.1 := by
  intro keys
  induction keys with
  | nil =>
    intro kp h p hp
    have : ([] : List (String × String)) = kp := by simpa [mapE] using h
    subst this
    simp at hp
  | cons a as ih =>
    intro kp h p hp
    obtain ⟨b, bs, hfa, hrest, rfl⟩ := mapE_cons_ok _ a as kp h
    cases a with
    | str v =>
      have hb : (v, pyLower v) = b := by simpa using hfa
      rcases List.mem_cons.mp hp with rfl | hp'
      · rw [← hb]
      · exact ih bs hrest p hp'
    | null => simp at hfa
    | num w => simp at hfa
    | bool w => simp at hfa
    | arr xs => simp at hfa
    | obj kvs => simp at hfa

theorem mem_statusTiers_of_pair (kp : List (String × String))
    (hsnd : ∀ p ∈ kp, p.2 = pyLower p.1) (v : String)
    (hvw : (v, pyLower v) ∈ kp) :
    v ∈ statusTiers kp := by
  simp only [statusTiers]
  by_cases ht : pyIn "todo" (pyLower v) = true
  · apply List.mem_append_left
    apply List.mem_append_left
    exact List.mem_map.mpr ⟨(v, pyLower v), List.mem_filter.mpr ⟨hvw, ht⟩, rfl⟩
  · by_cases hc : (pyIn "closed" (pyLower v) || pyIn "done" (pyLower v)) = true
    · exact List.mem_append_right _
        (List.mem_map.mpr ⟨(v, pyLower v), List.mem_filter.mpr ⟨hvw, hc⟩, rfl⟩)
    · have hvmem : v ∈ kp.map Prod.fst := List.mem_map.mpr ⟨_, hvw, rfl⟩
      have hno : pyInList v
          (((kp.filter (fun p => pyIn "todo" p.2)).map Prod.fst)
            ++ ((kp.filter (fun p => pyIn "closed" p.2 || pyIn "done" p.2)).map
                Prod.fst)) = false := by
        cases hp : pyInList v
            (((kp.filter (fun p => pyIn "todo" p.2)).map Prod.fst)
              ++ ((kp.filter (fun p => pyIn "closed" p.2 || pyIn "done" p.2)).map
                  Prod.fst)) with
        | false => rfl
        | true =>
          exfalso
          have hm := (pyInList_iff_mem _ _).mp hp
          rcases List.mem_append.mp hm with hm' | hm'
          · obtain ⟨p, hpf, hpfst⟩ := List.mem_map.mp hm'
            have h2 := List.mem_filter.mp hpf
            have hp2 := hsnd p h2.1
            rw [hp2, hpfst] at h2
            exact ht h2.2
          · obtain ⟨p, hpf, hpfst⟩ := List.mem_map.mp hm'
            have h2 := List.mem_filter.mp hpf
            have hp2 := hsnd p h2.1
            rw [hp2, hpfst] at h2
            exact hc h2.2
      apply List.mem_append_left
      apply List.mem_append_right
      rw [(insSort_perm _).mem_iff]
      exact List.mem_filter.mpr ⟨hvmem, by rw [hno]; rfl⟩

theorem renderRow_draft (ikvs ckvs : List (String × J)) (t : J)
    (hc : objLookup ikvs "content" = some (J.obj ckvs)) (hne : ckvs ≠ [])
    (hnum : objLookup ckvs "number" = none)
    (ht : objLookup ckvs "title" = some t) :
    renderRow (J.obj ikvs) = .ok (some (Row.plain t)) := by
  have hne2 : ckvs.isEmpty = false := by
    cases ckvs with
    | nil => exact absurd rfl hne
    | cons a l => rfl
  simp [renderRow, pyGetD, hc, hnum, ht, hne2, truthy, Bind.bind, Except.bind,
    pure, Except.pure]
  decide

theorem renderRow_contentless (jkvs : List (String × J))
    (hc : objLookup jkvs "content" = none ∨ objLookup jkvs "content" = some J.null
      ∨ objLookup jkvs "content" = some (J.obj [])) :
    renderRow (J.obj jkvs) = .ok none := by
  rcases hc with hc | hc | hc <;>
    simp [renderRow, pyGetD, hc, truthy, Bind.bind, Except.bind, pure, Except.pure]

-- ===========================================================================
-- C2: draft items remain on the organized board
-- ===========================================================================

/-- C2.  In the organized board, an item whose content is a DraftIssue
(a nonempty content document carrying a title and no number or url) is not
excluded: it is grouped under its status like any other item, and its
title appears as a row of the group labeled with that status.  Items whose
content is entirely absent (missing key, null, or empty document) are the
ones excluded: they render no row at all. -/
theorem c2_draft_items_appear_on_board :
    (∀ (items : List J) (board : List RenderedGroup) (i : J)
        (ikvs ckvs : List (String × J)) (t : J) (st : String),
      board_of_items items = .ok board →
      i ∈ items →
      i = J.obj ikvs →
      objLookup ikvs "content" = some (J.obj ckvs) →
      ckvs ≠ [] →
      objLookup ckvs "number" = none →
      objLookup ckvs "url" = none →
      objLookup ckvs "title" = some t →
      itemStatus i = .ok (J.str st) →
      ∃ grp ∈ board, grp.label = st ∧ Row.plain t ∈ grp.rows)
    ∧ (∀ (j : J) (jkvs : List (String × J)),
      j = J.obj jkvs →
      (objLookup jkvs "content" = none ∨ objLookup jkvs "content" = some J.null
        ∨ objLookup jkvs "content" = some (J.obj [])) →
      renderRow j = .ok none) := by
  constructor
  · intro items board i ikvs ckvs t st h1 hmem hobj hc hcne hnum hurl ht hst
    simp only [board_of_items] at h1
    obtain ⟨tagged, htag, h1⟩ := bindE_ok _ _ _ h1
    obtain ⟨groups, hgrp, h1⟩ := bindE_ok _ _ _ h1
    obtain ⟨order, hord, h1⟩ := bindE_ok _ _ _ h1
    -- the tagged pair of our item
    obtain ⟨y, hyi, hymem⟩ := mapE_ok_mem _ items tagged htag i hmem
    have hy : y = (J.str st, i) := by
      rw [show (itemStatus i >>= fun s => Except.ok (s, i))
            = Except.ok ((J.str st : J), i) by rw [hst]; rfl] at hyi
      simpa using hyi.symm
    subst hy
    -- our item's bucket in the grouping dict
    obtain ⟨b, hlookb, hib⟩ := cliGroupFold_mem tagged [] groups (J.str st) i hgrp
      (Or.inl hymem)
    -- the status string survives the ordering
    have hkeymem : (J.str st) ∈ groups.map Prod.fst :=
      lookupJ_some_key_mem groups (J.str st) b hlookb
    simp only [cliStatusOrder] at hord
    obtain ⟨kp, hkp, hord⟩ := bindE_ok _ _ _ hord
    have horder : statusTiers kp = order := by simpa using hord
    obtain ⟨y2, hy2, hy2mem⟩ := mapE_ok_mem _ _ kp hkp (J.str st) hkeymem
    have hy2eq : y2 = (st, pyLower st) := by simpa using hy2.symm
    subst hy2eq
    have hstord : st ∈ order := by
      rw [← horder]
      exact mem_statusTiers_of_pair kp (mapE_validate_snd _ kp hkp) st hy2mem
    -- the rendered group of that status
    obtain ⟨grp, hgrpeq, hgrpmem⟩ := mapE_ok_mem _ order board h1 st hstord
    rw [show (lookupJ groups (J.str st)).getD [] = b by rw [hlookb]; rfl] at hgrpeq
    obtain ⟨rows, hrows, hgrpeq⟩ := bindE_ok _ _ _ hgrpeq
    have hgrpdef : grp = ⟨st, b.length, rows⟩ := by simpa using hgrpeq.symm
    subst hgrpdef
    refine ⟨⟨st, b.length, rows⟩, hgrpmem, rfl, ?_⟩
    subst hobj
    exact collectRows_mem b rows hrows _ (Row.plain t) hib
      (renderRow_draft ikvs ckvs t hc hcne hnum ht)
  · rintro j jkvs rfl hc
    exact renderRow_contentless jkvs hc

/-- Witness for C2 on a one-draft board: the draft's title appears as a
row of the "No Status" group. -/
theorem c2_draft_items_appear_on_board_witness :
    (∃ grp ∈ [(⟨"No Status", 1, [Row.plain (J.str "Sketch")]⟩ : RenderedGroup)],
      grp.label = "No Status" ∧ Row.plain (J.str "Sketch") ∈ grp.rows)
    ∧ renderRow (J.obj [("itemId", J.str "I_1")]) = .ok none :=
  ⟨c2_draft_items_appear_on_board.1 [draftItem]
      [(⟨"No Status", 1, [Row.plain (J.str "Sketch")]⟩ : RenderedGroup)]
      draftItem [("content", J.obj [("title", J.str "Sketch"), ("body", J.str "notes")])]
      [("title", J.str "Sketch"), ("body", J.str "notes")]
      (J.str "Sketch") "No Status"
      rfl (List.mem_singleton.mpr rfl) rfl rfl (by simp) rfl rfl rfl rfl,
   c2_draft_items_appear_on_board.2 (J.obj [("itemId", J.str "I_1")])
      [("itemId", J.str "I_1")] rfl (Or.inl rfl)⟩
